import Mathlib

/-!
Verification development for the productivity-agent repository.

Shallow embedding of the scheduling core:
  * `src/server/services/google_docs_service.py`   (log parsing)
  * `src/server/services/google_calendar_service.py` (free-time computation)
  * `src/server/services/task_scheduler_service.py` (combine, prioritize,
    schedule, format, generate pipeline)

Modelling conventions:
  * Python floats are modelled as `ℚ`.  Every concrete number appearing in
    the claims (2.5, 1.5, 1.0, ...) is exactly representable as a binary
    double, so all Python float arithmetic on the claim inputs is exact and
    agrees with `ℚ` arithmetic.
  * Python `int(x)` on a nonnegative float and float floor division `//`
    are `Int.floor`.
  * Calendar events carry their start/end as fractional hours of the target
    day (`startH`, `endH`); the ISO-8601 string parsing and timezone
    localization performed by the Google API layer is the collaborator
    boundary and is outside the core (the core only ever uses
    `hour + minute/60`).
  * Fallible steps (CPython exceptions) are modelled with `Except String`.
  * Collaborator API calls are modelled by their outcome, an
    `Except String α` value handed to the function that performs the call.
-/

/-- A task record, as the dict produced by `_parse_task_details` /
`add_task` and enriched by the pipeline (`source`, `priority_score`). -/

structure TaskRec where
  name : String
  hours : ℚ
  urgency : String
  due_date : Option String
  source : String
  priority_score : ℤ
deriving DecidableEq

/-- A calendar event for the target date, as consumed by
`get_free_time_slots` and `_format_schedule`: `startH`/`endH` are the
fractional hours-of-day `hour + minute/60.0` that the code computes from
the parsed ISO timestamps. -/

structure CalEvent where
  summary : String
  startH : ℚ
  endH : ℚ
deriving DecidableEq

/-- A free slot as returned by `get_free_time_slots`
(`{'start': ..., 'end': ..., 'duration': ...}`, in fractional hours). -/

structure FreeSlot where
  start : ℚ
  stop : ℚ
  duration : ℚ
deriving DecidableEq

/-- An entry of `available_minutes` inside `_schedule_tasks`
(`{'start': ..., 'end': ..., 'duration': ...}`, in minutes). -/

structure MinSlot where
  start : ℚ
  stop : ℚ
  duration : ℚ
deriving DecidableEq

/-- A scheduled occurrence, the dict
`{**task, 'start_time': ..., 'end_time': ..., 'slot_duration': ...}`
appended to `scheduled` by `_schedule_tasks`. -/

structure SchedEntry where
  task : TaskRec
  start_time : ℚ
  end_time : ℚ
  slot_duration : ℚ
deriving DecidableEq

/-- The dict returned by `_schedule_tasks`. -/

structure Schedule where
  scheduled : List SchedEntry
  unscheduled : List TaskRec
  meetings : List CalEvent
deriving DecidableEq

/-! ## google_calendar_service.py -/

/-- `get_events_for_date` swallows every API failure: on `HttpError` or any
other exception it logs and returns the empty list (lines 127-132). -/

def get_events_for_date : Except String (List CalEvent) → List CalEvent
  | Except.ok events => events
  | Except.error _ => []

/-- One step of the Python list-sort: insert a later element after all
already-placed elements with a smaller-or-equal key (stable ascending). -/

def insertByStart (x : CalEvent) : List CalEvent → List CalEvent
  | [] => [x]
  | y :: ys => if y.startH ≤ x.startH then y :: insertByStart x ys else x :: y :: ys

/-- `event_blocks.sort(key=lambda x: x['start'])`: Python's stable ascending
sort by start, modelled as stable insertion sort (extensionally equal to any
stable sort by the same key). -/

def sortEventsByStart (l : List CalEvent) : List CalEvent :=
  l.foldl (fun acc x => insertByStart x acc) []

/-- The sweep loop of `get_free_time_slots` (lines 172-193): cursor
`current_time`, one pass over the (sorted) events, then the tail slot. -/

def freeSlotsSweep (workEnd : ℚ) : ℚ → List CalEvent → List FreeSlot
  | current, [] =>
      if current < workEnd then [⟨current, workEnd, workEnd - current⟩] else []
  | current, ev :: rest =>
      (if current < ev.startH then
        (let slotEnd := min ev.startH workEnd
         if current < slotEnd then [⟨current, slotEnd, slotEnd - current⟩] else [])
       else []) ++ freeSlotsSweep workEnd (max current ev.endH) rest

/-- `get_free_time_slots(target_date, work_start_hour, work_end_hour)`
(lines 134-196): fetch the events (an API call that yields `[]` on failure),
sort them by start, sweep from `float(work_start_hour)`. -/

def get_free_time_slots (api : Except String (List CalEvent))
    (work_start_hour work_end_hour : ℤ) : List FreeSlot :=
  freeSlotsSweep (work_end_hour : ℚ) (work_start_hour : ℚ)
    (sortEventsByStart (get_events_for_date api))

/-- Membership of a point in the union of the emitted free slots. -/

def slotMem (slots : List FreeSlot) (x : ℚ) : Prop :=
  ∃ s ∈ slots, s.start ≤ x ∧ x < s.stop

/-- Membership of a point in the union of the event intervals clamped to
the work window `[wS, wE)`. -/

def clampMem (wS wE : ℚ) (events : List CalEvent) (x : ℚ) : Prop :=
  ∃ e ∈ events, max e.startH wS ≤ x ∧ x < min e.endH wE


/-! ## google_docs_service.py -/

/-- The whitespace class of Python `str.strip()` / regex `\s` for the ASCII
range (space, tab, newline, carriage return, vertical tab, form feed);
all claim inputs are ASCII. -/

def isPySpace (c : Char) : Bool :=
  c = ' ' || c = '\t' || c = '\n' || c = '\r' ||
    c = Char.ofNat 11 || c = Char.ofNat 12

/-- Python `str.strip()`. -/

def pystrip (s : String) : String :=
  String.mk (((s.data.dropWhile isPySpace).reverse.dropWhile isPySpace).reverse)

/-- Substring containment on char lists (`needle` occurs contiguously in
`hay`). -/

def pyInChars (needle : List Char) : List Char → Bool
  | [] => needle.length = 0
  | c :: rest => List.take needle.length (c :: rest) == needle || pyInChars needle rest

/-- Python `needle in hay` on strings. -/

def pyIn (needle hay : String) : Bool :=
  pyInChars needle.data hay.data

/-- Regex `\w` (word character); claim inputs are ASCII. -/

def isWordChar (c : Char) : Bool :=
  c.isAlphanum || c = '_'

/-- `re.match(r'\d{1,2}/\d{1,2}/\d{2,4}\s*-\s*\w+', line)` (docs service
lines 141 and 201): an anchored prefix match, with the regex backtracking
resolved (a digit run longer than the counted repetition can never be
followed by the required `/`, space or `-`, so the full runs must have the
counted lengths). -/

def matchDateHeader (s : String) : Bool :=
  let cs := s.data
  let d1 := cs.takeWhile Char.isDigit
  let r1 := cs.drop d1.length
  if d1.length = 0 || 2 < d1.length then false
  else match r1 with
    | '/' :: r2 =>
      let d2 := r2.takeWhile Char.isDigit
      let r3 := r2.drop d2.length
      if d2.length = 0 || 2 < d2.length then false
      else match r3 with
        | '/' :: r4 =>
          let d3 := r4.takeWhile Char.isDigit
          let r5 := r4.drop d3.length
          if d3.length < 2 || 4 < d3.length then false
          else
            match r5.dropWhile isPySpace with
            | '-' :: r7 =>
              (match r7.dropWhile isPySpace with
               | c :: _ => isWordChar c
               | [] => false)
            | _ => false
        | _ => false
    | _ => false

/-- `re.search(r'\(([^)]+)\)', task_text)` (line 240): the leftmost `(`
followed by at least one non-`)` character and a closing `)`; returns the
group between the parentheses. -/

def findDetails : List Char → Option (List Char)
  | [] => none
  | '(' :: rest =>
    let run := rest.takeWhile (fun c => c ≠ ')')
    if run.length ≠ 0 && run.length < rest.length then some run
    else findDetails rest
  | _ :: rest => findDetails rest

/-- Numeric value of a digit run. -/

def natOfDigits (ds : List Char) : ℕ :=
  ds.foldl (fun a c => 10 * a + (c.toNat - 48)) 0

/-- `float("<int>.<frac>")` for the short decimal literals the duration
regex can produce (exact for the dyadic claim inputs). -/

def ratOfDigits (intDs fracDs : List Char) : ℚ :=
  (natOfDigits intDs : ℚ) + (natOfDigits fracDs : ℚ) / (10 ^ fracDs.length)

/-- `re.search(r'(\d+(?:\.\d+)?)h', details)` (line 247): leftmost match,
greedy digit runs; returns the matched quantity as a rational. -/

def scanDur : List Char → Option ℚ
  | [] => none
  | c :: rest =>
    if c.isDigit then
      let ds := List.takeWhile Char.isDigit (c :: rest)
      let after := List.drop ds.length (c :: rest)
      match after with
      | '.' :: a2 =>
        let fs := List.takeWhile Char.isDigit a2
        if 0 < fs.length then
          match List.drop fs.length a2 with
          | 'h' :: _ => some (ratOfDigits ds fs)
          | _ => scanDur rest
        else scanDur rest
      | 'h' :: _ => some (ratOfDigits ds [])
      | _ => scanDur rest
    else scanDur rest

/-- `re.search(r'due\s+(\d{4}-\d{2}-\d{2})', details)` (line 263):
leftmost `due`, at least one whitespace, then the date group (no
constraint after the group). -/

def scanDue : List Char → Option String
  | [] => none
  | 'd' :: rest =>
    (match rest with
     | 'u' :: 'e' :: r2 =>
       let sp := List.takeWhile isPySpace r2
       if sp.length = 0 then scanDue rest
       else
         match List.drop sp.length r2 with
         | y1 :: y2 :: y3 :: y4 :: '-' :: m1 :: m2 :: '-' :: d1 :: d2 :: _ =>
           if y1.isDigit && y2.isDigit && y3.isDigit && y4.isDigit
              && m1.isDigit && m2.isDigit && d1.isDigit && d2.isDigit then
             some (String.mk [y1, y2, y3, y4, '-', m1, m2, '-', d1, d2])
           else scanDue rest
         | _ => scanDue rest
     | _ => scanDue rest)
  | _ :: rest => scanDue rest

/-- `_parse_task_details(task_text)` (docs service lines 226-279): extract
the parenthesized details, the `<number>h` duration (default 1.0), the
urgency keyword (checked in the order urgent, high, critical, low, default
medium — note the code keeps the literal string `urgent`), the optional
`due YYYY-MM-DD`, and the name (text before the first `(`, stripped). -/

def _parse_task_details (task_text : String) : Option TaskRec :=
  match findDetails task_text.data with
  | none => none
  | some detCs =>
    let low := detCs.map Char.toLower
    let hours : ℚ := match scanDur detCs with | some q => q | none => 1
    let urgency := if pyInChars "urgent".data low then "urgent"
      else if pyInChars "high".data low then "high"
      else if pyInChars "critical".data low then "critical"
      else if pyInChars "low".data low then "low"
      else "medium"
    let due := scanDue detCs
    let name := pystrip (String.mk (task_text.data.takeWhile (fun c => c ≠ '(')))
    some { name := name, hours := hours, urgency := urgency,
           due_date := due, source := "", priority_score := 0 }

/-- `read_document` (lines 68-107) swallows every API failure: on
`HttpError` or any other exception it logs and returns the empty string. -/

def read_document : Except String String → String
  | Except.ok content => content
  | Except.error _ => ""

/-- The line loop of `parse_tasks_from_doc` (lines 135-162), with the
`current_date` state; `todayPat` is `today.strftime('%m/%d/%y')`. -/

def parseDocLines (todayPat : String) : Option String → List String → List TaskRec
  | _, [] => []
  | currentDate, l :: ls =>
    let line := pystrip l
    if line = "" then parseDocLines todayPat currentDate ls
    else if matchDateHeader line then parseDocLines todayPat (some line) ls
    else if pyIn todayPat line then parseDocLines todayPat (some line) ls
    else if (match currentDate with
             | some cd => pyIn todayPat cd
             | none => false) && line.startsWith "-" then
      let taskText := pystrip (line.drop 1)
      if List.contains taskText.data '✔' || List.contains taskText.data '✓' then
        parseDocLines todayPat currentDate ls
      else
        match _parse_task_details taskText with
        | some ti =>
            { ti with source := "carryover" } :: parseDocLines todayPat currentDate ls
        | none => parseDocLines todayPat currentDate ls
    else parseDocLines todayPat currentDate ls

/-- `parse_tasks_from_doc` (lines 109-169): read the document (empty on
API failure), split into lines, run the stateful line loop. -/

def parse_tasks_from_doc (todayPat : String) (api : Except String String) :
    List TaskRec :=
  let content := read_document api
  if content = "" then []
  else parseDocLines todayPat none (content.splitOn "\n")

/-- The line loop of `parse_still_on_list` (lines 190-217), with the
`in_still_on_list` state. -/

def parseStillLines : Bool → List String → List TaskRec
  | _, [] => []
  | inStill, l :: ls =>
    let line := pystrip l
    if line = "" then parseStillLines inStill ls
    else if pyIn "Still on list" line || pyIn "still on list" line then
      parseStillLines true ls
    else if matchDateHeader line then parseStillLines false ls
    else if inStill && line.startsWith "-" then
      let taskText := pystrip (line.drop 1)
      if List.contains taskText.data '✔' || List.contains taskText.data '✓' then
        parseStillLines inStill ls
      else
        match _parse_task_details taskText with
        | some ti =>
            { ti with source := "still_on_list" } :: parseStillLines inStill ls
        | none => parseStillLines inStill ls
    else parseStillLines inStill ls

/-- `parse_still_on_list` (lines 171-224). -/

def parse_still_on_list (api : Except String String) : List TaskRec :=
  let content := read_document api
  if content = "" then []
  else parseStillLines false (content.splitOn "\n")

/-! ## task_scheduler_service.py -/

/-- The dedup loop of `_combine_all_tasks` (lines 287-293): keep a task iff
its name (exact, case-sensitive) has not been seen; the first occurrence
keeps its full record. -/

def dedupTasks (seen : List String) : List TaskRec → List TaskRec
  | [] => []
  | t :: ts =>
    if t.name ∈ seen then dedupTasks seen ts
    else t :: dedupTasks (t.name :: seen) ts

/-- `_combine_all_tasks(carryover, new_tasks, still_on_list)`
(lines 271-296): concatenate the three sources and deduplicate by name. -/

def _combine_all_tasks (carryover new_tasks still_on_list : List TaskRec) :
    List TaskRec :=
  dedupTasks [] (carryover ++ new_tasks ++ still_on_list)

/-- `urgency_weights.get(task.get("urgency", "medium"), 4)`
(lines 309-318): critical 10, high 7, medium 4, low 1, anything else 4. -/

def urgency_weight (u : String) : ℤ :=
  if u = "critical" then 10
  else if u = "high" then 7
  else if u = "medium" then 4
  else if u = "low" then 1
  else 4

/-- All-digits check for a date field. -/

def digitsOnly (s : List Char) : Bool := s.all Char.isDigit

/-- Gregorian month length (with the leap rule), as validated by
`datetime.strptime(..., "%Y-%m-%d")`. -/

def daysInMonth (y m : ℕ) : ℕ :=
  if m = 2 then (if y % 4 = 0 ∧ (y % 100 ≠ 0 ∨ y % 400 = 0) then 29 else 28)
  else if m = 4 ∨ m = 6 ∨ m = 9 ∨ m = 11 then 30 else 31

/-- Proleptic-Gregorian day number (days since 1970-01-01) of a valid
civil date, the standard era-based formula; `(a - b).days` for two Python
`date`s is the difference of these numbers. -/

def civilToDays (y m d : ℕ) : ℤ :=
  let yAdj := if m ≤ 2 then y - 1 else y
  let era := yAdj / 400
  let yoe := yAdj % 400
  let mp := if 2 < m then m - 3 else m + 9
  let doy := (153 * mp + 2) / 5 + d - 1
  let doe := yoe * 365 + yoe / 4 - yoe / 100 + doy
  ((era * 146097 + doe : ℕ) : ℤ) - 719468

/-- `datetime.strptime(s, "%Y-%m-%d").date()` as a day number: `%Y`
accepts 1-4 digits, `%m`/`%d` 1-2 digits, the field values are validated
(year 1-9999, month 1-12, day within the month), and an invalid string
raises `ValueError` (here `none`). -/

def dateOrd (s : String) : Option ℤ :=
  match s.splitOn "-" with
  | [ys, ms, ds] =>
    if digitsOnly ys.data ∧ 1 ≤ ys.length ∧ ys.length ≤ 4
        ∧ digitsOnly ms.data ∧ 1 ≤ ms.length ∧ ms.length ≤ 2
        ∧ digitsOnly ds.data ∧ 1 ≤ ds.length ∧ ds.length ≤ 2 then
      let y := natOfDigits ys.data
      let m := natOfDigits ms.data
      let d := natOfDigits ds.data
      if 1 ≤ y ∧ y ≤ 9999 ∧ 1 ≤ m ∧ m ≤ 12 ∧ 1 ≤ d ∧ d ≤ daysInMonth y m then
        some (civilToDays y m d)
      else none
    else none
  | _ => none

/-- The due-date weighting of `_prioritize_tasks` (lines 321-331): a falsy
`due_date` (absent or empty) contributes 0 without being parsed; otherwise
the date is parsed (`ValueError` propagates on an invalid date) and
`days_until_due = (due_date - today).days` is weighted 5 / 3 / 1 / 0. -/

def due_weight (dd : Option String) (today : ℤ) : Except String ℤ :=
  match dd with
  | none => Except.ok 0
  | some s =>
    if s = "" then Except.ok 0
    else match dateOrd s with
      | none => Except.error ("time data " ++ s ++ " does not match format")
      | some o =>
        Except.ok (if o - today ≤ 0 then 5
          else if o - today = 1 then 3
          else if o - today ≤ 7 then 1 else 0)

/-- One iteration of the scoring loop of `_prioritize_tasks`
(lines 316-337): urgency weight, plus due-date weight, plus the +3
carryover boost for `source` in `["carryover", "still_on_list"]`. -/

def score_task (today : ℤ) (t : TaskRec) : Except String TaskRec :=
  match due_weight t.due_date today with
  | Except.error e => Except.error e
  | Except.ok w =>
    Except.ok
      { t with
        priority_score :=
          urgency_weight t.urgency + w +
            (if t.source = "carryover" ∨ t.source = "still_on_list" then 3
             else 0) }

/-- One step of Python's stable descending sort: a later element is placed
after every already-placed element with a greater-or-equal key. -/

def insertByScore (x : TaskRec) : List TaskRec → List TaskRec
  | [] => [x]
  | y :: ys =>
    if x.priority_score ≤ y.priority_score then y :: insertByScore x ys
    else x :: y :: ys

/-- `sorted(tasks, key=lambda t: t["priority_score"], reverse=True)`
(line 340): Python's stable descending sort by score, modelled as stable
insertion sort (extensionally equal to any stable sort by the same key). -/

def sortByScoreDesc (l : List TaskRec) : List TaskRec :=
  l.foldl (fun acc x => insertByScore x acc) []

/-- `_prioritize_tasks` (lines 298-342): score every task (the first
invalid due date raises out of the loop), then sort by descending score. -/

def _prioritize_tasks (today : ℤ) (tasks : List TaskRec) :
    Except String (List TaskRec) :=
  match tasks.mapM (score_task today) with
  | Except.error e => Except.error e
  | Except.ok scored => Except.ok (sortByScoreDesc scored)

/-- `int(task['hours'] * 60)` (line 380), as a float value. -/

def task_minutes (t : TaskRec) : ℚ := ((⌊t.hours * 60⌋ : ℤ) : ℚ)

/-- The inner slot loop of `_schedule_tasks` (lines 383-397): find the
first slot whose remaining `duration` is at least the whole task, return
its pre-allocation `start` and `duration` and the updated slot list;
`none` when no slot can hold the whole task. -/

def tryFit (tm : ℚ) : List MinSlot → Option (ℚ × ℚ × List MinSlot)
  | [] => none
  | s :: rest =>
    if tm ≤ s.duration then
      some (s.start, s.duration,
        { s with start := s.start + tm, duration := s.duration - tm } :: rest)
    else
      match tryFit tm rest with
      | none => none
      | some (a, d, rest') => some (a, d, s :: rest')

/-- The task loop of `_schedule_tasks` (lines 379-400): each task is
either placed whole in one slot (one `scheduled` entry, with
`start_time = slot.start // 60`, `end_time = (slot.start + minutes) // 60`,
`slot_duration = duration // 60`, all float floor-divisions) or appended
whole to `unscheduled`. -/

def schedLoop : List TaskRec → List MinSlot → List SchedEntry × List TaskRec
  | [], _ => ([], [])
  | t :: ts, slots =>
    match tryFit (task_minutes t) slots with
    | some (a, d, slots') =>
      let res := schedLoop ts slots'
      ({ task := t, start_time := ((⌊a / 60⌋ : ℤ) : ℚ),
         end_time := ((⌊(a + task_minutes t) / 60⌋ : ℤ) : ℚ),
         slot_duration := ((⌊d / 60⌋ : ℤ) : ℚ) } :: res.1, res.2)
    | none =>
      let res := schedLoop ts slots
      (res.1, t :: res.2)

/-- `_schedule_tasks(tasks, calendar_events, start_hour, end_hour)`
(lines 344-407): fetch the free slots from the calendar service, convert
them to minutes, run the greedy whole-fit loop, and return the schedule
dict (the raw events ride along as `meetings`). -/

def _schedule_tasks (tasks : List TaskRec) (calendar_events : List CalEvent)
    (calApi : Except String (List CalEvent)) (start_hour end_hour : ℤ) :
    Schedule :=
  let free := get_free_time_slots calApi start_hour end_hour
  let available := free.map
    (fun s => MinSlot.mk (s.start * 60) (s.stop * 60) (s.duration * 60))
  let res := schedLoop tasks available
  { scheduled := res.1, unscheduled := res.2, meetings := calendar_events }

/-- Two-digit zero padding, as in `%H`/`%M` of `strftime`. -/

def pad2 (n : ℕ) : String := if n < 10 then "0" ++ toString n else toString n

/-- `datetime.strftime('%H:%M')` of an in-day instant given as fractional
hours. -/

def hhmm (q : ℚ) : String :=
  let tot := (⌊q * 60⌋).toNat
  pad2 (tot / 60) ++ ":" ++ pad2 (tot % 60)

/-- Decimal digits of a fractional part, most significant first (bounded
by the 17 significant digits a CPython float repr can need; exact for the
short decimals of the claims). -/

def fracDigits : ℕ → ℚ → List Char
  | 0, _ => []
  | fuel + 1, f =>
    if f = 0 then []
    else
      let f10 := f * 10
      let dgt := ⌊f10⌋
      Char.ofNat (48 + dgt.toNat) :: fracDigits fuel (f10 - (dgt : ℚ))

/-- CPython `repr(float)` for the nonnegative exactly-representable short
decimals that reach the formatter (`2.5` ↦ `"2.5"`, `1` ↦ `"1.0"`). -/

def hoursRepr (q : ℚ) : String :=
  let ip := ⌊q⌋
  let ds := fracDigits 17 (q - (ip : ℚ))
  toString ip ++ "." ++ (if ds.isEmpty then "0" else String.mk ds)

/-- The `due_text` of `_format_schedule` (lines 434 and 459): rendered only
for a truthy `due_date`. -/

def dueText (t : TaskRec) : String :=
  match t.due_date with
  | some s => if s = "" then "" else " - due " ++ s
  | none => ""

/-- One meeting line of `_format_schedule` (lines 439-452), for an event
whose timestamps parse (the modelled `CalEvent` carries the parsed
instants, so the `except` fallback line is unreachable). -/

def meetingLine (m : CalEvent) : String :=
  "[Meeting: " ++ hhmm m.startH ++ " - " ++ hhmm m.endH ++ ": " ++
    m.summary ++ "]\n"

/-- One still-on-list line of `_format_schedule` (lines 457-460). -/

def stillLine (t : TaskRec) : String :=
  "- " ++ t.name ++ " (" ++ hoursRepr t.hours ++ "h, " ++ t.urgency ++
    " urgency" ++ dueText t ++ ")\n"

/-- The `ValueError` message CPython raises for `format(9.0, '02d')`
(quotes around `d` and `float` elided). -/

def floatFormatError : String :=
  "Unknown format code d for object of type float"

/-- The scheduled-task loop of `_format_schedule` (lines 430-436): the
first iteration evaluates the f-string
`f"{task['start_time']:02d}:00"`, and `start_time` is a float (it was
produced by float floor-division in `_schedule_tasks`), so CPython raises
`ValueError` — formatting any schedule with at least one scheduled task
fails before a single task line is produced. -/

def renderTaskLines (acc : String) : List SchedEntry → Except String String
  | [] => Except.ok acc
  | _ :: _ => Except.error floatFormatError

/-- `_format_schedule(date, schedule)` (lines 409-465): date header, task
lines (which raise on the first scheduled task), meeting lines, the
still-on-list section only when `unscheduled` is non-empty, and the
`---` separator. -/

def _format_schedule (dateStr : String) (schedule : Schedule) :
    Except String String :=
  match renderTaskLines (dateStr ++ "\n\n") schedule.scheduled with
  | Except.error e => Except.error e
  | Except.ok t1 =>
    let t2 := schedule.meetings.foldl (fun acc m => acc ++ meetingLine m) t1
    let t3 :=
      if schedule.unscheduled.isEmpty then t2
      else schedule.unscheduled.foldl (fun acc t => acc ++ stillLine t)
        (t2 ++ "\nStill on list (not scheduled today):\n")
    Except.ok (t3 ++ "\n---\n")

/-- `_create_summary` (lines 467-472). -/

def _create_summary (schedule : Schedule) : String :=
  "Schedule created! " ++ toString schedule.scheduled.length ++
    " tasks scheduled, " ++ toString schedule.unscheduled.length ++
    " on waitlist."

/-- `generate_complete_schedule` (lines 174-261), for a configured doc id:
parse the doc twice (carryover and still-on-list), fetch the events,
combine, prioritize, schedule, format, append.  Any exception escaping a
step is caught by the surrounding `try` and turned into the return string
`"Error: ..."`; the result is the returned message together with the list
of texts durably appended to the document (empty when nothing was
written). -/

def generate_complete_schedule (todayPat dateStr : String) (today : ℤ)
    (docApi : Except String String) (calApi : Except String (List CalEvent))
    (appendApi : Except String Unit) (tasks_memory : List TaskRec)
    (work_start_hour work_end_hour : ℤ) : String × List String :=
  let doc_tasks := parse_tasks_from_doc todayPat docApi
  let still_on_list_tasks := parse_still_on_list docApi
  let calendar_events := get_events_for_date calApi
  let all_tasks := _combine_all_tasks doc_tasks tasks_memory still_on_list_tasks
  match _prioritize_tasks today all_tasks with
  | Except.error e => ("Error: " ++ e, [])
  | Except.ok prioritized =>
    let schedule := _schedule_tasks prioritized calendar_events calApi
      work_start_hour work_end_hour
    match _format_schedule dateStr schedule with
    | Except.error e => ("Error: " ++ e, [])
    | Except.ok schedule_text =>
      match appendApi with
      | Except.error e => ("Error: " ++ e, [])
      | Except.ok _ => (_create_summary schedule, [schedule_text])

/-! ## Supporting lemmas -/

/-- The `seen_names` set after the dedup loop has processed a list. -/

def seenAfter (seen : List String) : List TaskRec → List String
  | [] => seen
  | t :: ts =>
    if t.name ∈ seen then seenAfter seen ts
    else seenAfter (t.name :: seen) ts

/-- Task for the C9 first-seen-wins instance. -/

def reportTaskA : TaskRec :=
  { name := "Report", hours := 2, urgency := "high", due_date := none,
    source := "carryover", priority_score := 0 }

/-- Same name as `reportTaskA`, different attributes. -/

def reportTaskB : TaskRec :=
  { name := "Report", hours := 5, urgency := "low",
    due_date := some "2025-12-01", source := "still_on_list",
    priority_score := 0 }


/-- The docstring example of `_format_schedule` (lines 413-423): a task
occurrence 12:00-13:00 and a meeting 11:00-12:00. -/

def walkDogEntry : SchedEntry :=
  { task := { name := "Walk dog", hours := 1, urgency := "medium",
              due_date := none, source := "add_task", priority_score := 4 },
    start_time := 12, end_time := 13, slot_duration := 1 }

/-- The meeting of the docstring example. -/

def standupMeeting : CalEvent :=
  { summary := "Team standup", startH := 11, endH := 12 }


/-- The single 2.5h task of the C1 scenario. -/

def writeTask : TaskRec :=
  { name := "Write", hours := 5/2, urgency := "medium", due_date := none,
    source := "add_task", priority_score := 4 }

/-- A busy block 11:00-13:00, which leaves exactly the free slots
`[9,11)` and `[13,14)` in the work window 9-14. -/

def busyBlock : CalEvent := { summary := "Busy", startH := 11, endH := 13 }


/-- The 1.5h task of the C10 instance. -/

def gymTask : TaskRec :=
  { name := "Gym", hours := 3/2, urgency := "critical", due_date := none,
    source := "add_task", priority_score := 10 }

/-- The 9:00-11:00 free slot, in minutes. -/

def gymSlot : MinSlot := { start := 540, stop := 660, duration := 120 }

/-- The entry the scheduler produces for `gymTask` in `gymSlot`:
`start_time = 540 // 60 = 9`, `end_time = (540 + 90) // 60 = 10`. -/

def gymEntry : SchedEntry :=
  { task := gymTask, start_time := 9, end_time := 10, slot_duration := 2 }


/-- Total minutes allocated to a task name: the sum, over all scheduled
occurrences carrying that name, of the whole-task minutes each occurrence
consumed from its slot (`int(task['hours'] * 60)`). -/

def scheduledMinutes (entries : List SchedEntry) (n : String) : ℚ :=
  ((entries.filter (fun e => e.task.name == n)).map
    (fun e => task_minutes e.task)).sum


/-- Three tasks for the C7 witness: scores 13, 10, 13 (a tie between the
first and the third, which must keep their order). -/

def witnessTasks : List TaskRec :=
  [{ name := "A", hours := 1, urgency := "high",
     due_date := some "2025-01-02", source := "carryover",
     priority_score := 0 },
   { name := "B", hours := 2, urgency := "critical", due_date := none,
     source := "add_task", priority_score := 0 },
   { name := "C", hours := 1, urgency := "critical", due_date := none,
     source := "still_on_list", priority_score := 0 }]

/-- The scored list for `witnessTasks` with today = 2025-01-01
(day number 20089). -/

def witnessScored : List TaskRec :=
  [{ name := "A", hours := 1, urgency := "high",
     due_date := some "2025-01-02", source := "carryover",
     priority_score := 13 },
   { name := "B", hours := 2, urgency := "critical", due_date := none,
     source := "add_task", priority_score := 10 },
   { name := "C", hours := 1, urgency := "critical", due_date := none,
     source := "still_on_list", priority_score := 13 }]


/-! ## Lemmas and claim theorems -/

theorem slotMem_nil (x : ℚ) : slotMem [] x ↔ False := by
  simp [slotMem]

theorem slotMem_cons (s : FreeSlot) (l : List FreeSlot) (x : ℚ) :
    slotMem (s :: l) x ↔ (s.start ≤ x ∧ x < s.stop) ∨ slotMem l x := by
  simp [slotMem, or_and_right, exists_or]

theorem slotMem_append (l₁ l₂ : List FreeSlot) (x : ℚ) :
    slotMem (l₁ ++ l₂) x ↔ slotMem l₁ x ∨ slotMem l₂ x := by
  simp [slotMem, or_and_right, exists_or]

theorem clampMem_cons (e : CalEvent) (l : List CalEvent) (wS wE x : ℚ) :
    clampMem wS wE (e :: l) x ↔
      (max e.startH wS ≤ x ∧ x < min e.endH wE) ∨ clampMem wS wE l x := by
  simp [clampMem, or_and_right, exists_or]

/-- One sweep step rewrites the covered region: the slot emitted for `ev`
(if any), the clamped interval of `ev`, and the already-covered prefix
`[wS, min c wE)` together cover exactly `[wS, min (max c ev.endH) wE)`. -/
theorem sweep_step_eq (wS wE c : ℚ) (ev : CalEvent) (hc : wS ≤ c)
    (hev : ev.startH < ev.endH) (x : ℚ) :
    (slotMem (if c < ev.startH then
        (let slotEnd := min ev.startH wE
         if c < slotEnd then [⟨c, slotEnd, slotEnd - c⟩] else []) else []) x
      ∨ (max ev.startH wS ≤ x ∧ x < min ev.endH wE)
      ∨ (wS ≤ x ∧ x < min c wE))
    ↔ (wS ≤ x ∧ x < min (max c ev.endH) wE) := by
  by_cases h1 : c < ev.startH
  · by_cases h2 : c < min ev.startH wE
    · rw [if_pos h1]
      simp only [if_pos h2, slotMem_cons, slotMem_nil, or_false]
      constructor
      · rintro (⟨ha, hb⟩ | ⟨ha, hb⟩ | ⟨ha, hb⟩)
        · refine ⟨le_trans hc ha, lt_min ?_ (lt_of_lt_of_le hb (min_le_right _ _))⟩
          exact lt_of_lt_of_le (lt_of_lt_of_le hb (min_le_left _ _))
            (le_trans (le_of_lt hev) (le_max_right _ _))
        · refine ⟨le_trans (le_max_right _ _) ha, lt_min ?_ (lt_of_lt_of_le hb (min_le_right _ _))⟩
          exact lt_of_lt_of_le (lt_of_lt_of_le hb (min_le_left _ _)) (le_max_right _ _)
        · refine ⟨ha, lt_min ?_ (lt_of_lt_of_le hb (min_le_right _ _))⟩
          exact lt_of_lt_of_le (lt_of_lt_of_le hb (min_le_left _ _)) (le_max_left _ _)
      · rintro ⟨ha, hb⟩
        have hxw : x < wE := lt_of_lt_of_le hb (min_le_right _ _)
        have hxm : x < max c ev.endH := lt_of_lt_of_le hb (min_le_left _ _)
        rcases lt_or_le x c with hxc | hcx
        · exact Or.inr (Or.inr ⟨ha, lt_min hxc hxw⟩)
        · rcases lt_or_le x (min ev.startH wE) with hxs | hsx
          · exact Or.inl ⟨hcx, hxs⟩
          · rcases le_or_lt ev.startH wE with hsw | hws
            · have hstx : ev.startH ≤ x := by rw [min_eq_left hsw] at hsx; exact hsx
              refine Or.inr (Or.inl ⟨max_le hstx ha, ?_⟩)
              have hmx : max c ev.endH = ev.endH :=
                max_eq_right (le_of_lt (lt_trans h1 hev))
              rw [hmx] at hxm
              exact lt_min hxm hxw
            · exfalso
              rw [min_eq_right (le_of_lt hws)] at hsx
              exact absurd hxw (not_lt.mpr hsx)
    · rw [if_pos h1]
      simp only [if_neg h2, slotMem_nil, false_or]
      have hwec : wE ≤ c := by
        have hmc : min ev.startH wE ≤ c := not_lt.mp h2
        rcases le_total ev.startH wE with h | h
        · rw [min_eq_left h] at hmc; linarith
        · rwa [min_eq_right h] at hmc
      have e1 : min c wE = wE := min_eq_right hwec
      have e2 : min (max c ev.endH) wE = wE :=
        min_eq_right (le_trans hwec (le_max_left _ _))
      rw [e1, e2]
      constructor
      · rintro (⟨ha, hb⟩ | h)
        · exact ⟨le_trans (le_max_right _ _) ha, lt_of_lt_of_le hb (min_le_right _ _)⟩
        · exact h
      · exact fun h => Or.inr h
  · rw [if_neg h1]
    simp only [slotMem_nil, false_or]
    have hsc : ev.startH ≤ c := not_lt.mp h1
    constructor
    · rintro (⟨ha, hb⟩ | ⟨ha, hb⟩)
      · refine ⟨le_trans (le_max_right _ _) ha, lt_min ?_ (lt_of_lt_of_le hb (min_le_right _ _))⟩
        exact lt_of_lt_of_le (lt_of_lt_of_le hb (min_le_left _ _)) (le_max_right _ _)
      · refine ⟨ha, lt_min ?_ (lt_of_lt_of_le hb (min_le_right _ _))⟩
        exact lt_of_lt_of_le (lt_of_lt_of_le hb (min_le_left _ _)) (le_max_left _ _)
    · rintro ⟨ha, hb⟩
      have hxw : x < wE := lt_of_lt_of_le hb (min_le_right _ _)
      have hxm : x < max c ev.endH := lt_of_lt_of_le hb (min_le_left _ _)
      rcases lt_or_le x c with hxc | hcx
      · exact Or.inr ⟨ha, lt_min hxc hxw⟩
      · have hxe : x < ev.endH := by
          rcases le_or_lt ev.endH c with h | h
          · rw [max_eq_left h] at hxm; linarith
          · rwa [max_eq_right (le_of_lt h)] at hxm
        exact Or.inl ⟨max_le (le_trans hsc hcx) (le_trans hc hcx), lt_min hxe hxw⟩

/-- The sweep covers the window: emitted slots, clamped events, and the
already-swept prefix `[wS, min c wE)` together are exactly `[wS, wE)`. -/
theorem freeSlotsSweep_cover (wS wE : ℚ) (evs : List CalEvent) :
    ∀ c : ℚ, wS ≤ c → (∀ e ∈ evs, e.startH < e.endH) → ∀ x : ℚ,
      (slotMem (freeSlotsSweep wE c evs) x ∨ clampMem wS wE evs x
        ∨ (wS ≤ x ∧ x < min c wE))
        ↔ (wS ≤ x ∧ x < wE) := by
  induction evs with
  | nil =>
    intro c hc _ x
    simp only [freeSlotsSweep, clampMem, List.not_mem_nil, false_and, exists_false,
      false_or]
    by_cases h : c < wE
    · simp only [if_pos h, slotMem_cons, slotMem_nil, or_false]
      constructor
      · rintro (⟨h1, h2⟩ | ⟨h1, h2⟩)
        · exact ⟨le_trans hc h1, h2⟩
        · exact ⟨h1, lt_of_lt_of_le h2 (min_le_right _ _)⟩
      · rintro ⟨h1, h2⟩
        rcases lt_or_le x c with hx | hx
        · exact Or.inr ⟨h1, lt_min hx h2⟩
        · exact Or.inl ⟨hx, h2⟩
    · simp only [if_neg h, slotMem_nil, false_or]
      rw [min_eq_right (not_lt.mp h)]
    | cons ev rest ih =>
    intro c hc hval x
    have hev : ev.startH < ev.endH := hval ev (List.mem_cons_self _ _)
    have hrest : ∀ e ∈ rest, e.startH < e.endH :=
      fun e he => hval e (List.mem_cons_of_mem _ he)
    have hc' : wS ≤ max c ev.endH := le_trans hc (le_max_left _ _)
    have IHx := ih (max c ev.endH) hc' hrest x
    have hstep := sweep_step_eq wS wE c ev hc hev x
    rw [freeSlotsSweep, slotMem_append, clampMem_cons]
    constructor
    · rintro ((hA | hB) | (hC | hD) | hE)
      · exact IHx.mp (Or.inr (Or.inr (hstep.mp (Or.inl hA))))
      · exact IHx.mp (Or.inl hB)
      · exact IHx.mp (Or.inr (Or.inr (hstep.mp (Or.inr (Or.inl hC)))))
      · exact IHx.mp (Or.inr (Or.inl hD))
      · exact IHx.mp (Or.inr (Or.inr (hstep.mp (Or.inr (Or.inr hE)))))
    · intro hw
      rcases IHx.mpr hw with hB | hD | hE'
      · exact Or.inl (Or.inr hB)
      · exact Or.inr (Or.inl (Or.inr hD))
      · rcases hstep.mpr hE' with hA | hC | hE
        · exact Or.inl (Or.inl hA)
        · exact Or.inr (Or.inl (Or.inl hC))
        · exact Or.inr (Or.inr hE)

/-- Every slot the sweep emits starts at or after the cursor and is
non-degenerate, and consecutive slots are ordered without overlap. -/
theorem freeSlotsSweep_chain (wE : ℚ) (evs : List CalEvent) :
    ∀ c : ℚ, (∀ e ∈ evs, e.startH < e.endH) →
      (∀ s ∈ freeSlotsSweep wE c evs, c ≤ s.start ∧ s.start < s.stop) ∧
      List.Pairwise (fun a b => a.stop ≤ b.start) (freeSlotsSweep wE c evs) := by
  induction evs with
  | nil =>
    intro c _
    rw [freeSlotsSweep]
    by_cases h : c < wE
    · rw [if_pos h]
      refine ⟨?_, List.pairwise_singleton _ _⟩
      intro s hs
      rw [List.mem_singleton] at hs
      subst hs
      exact ⟨le_refl _, h⟩
    · rw [if_neg h]
      exact ⟨by intro s hs; simp at hs, List.Pairwise.nil⟩
  | cons ev rest ih =>
    intro c hval
    have hev : ev.startH < ev.endH := hval ev (List.mem_cons_self _ _)
    have hrest : ∀ e ∈ rest, e.startH < e.endH :=
      fun e he => hval e (List.mem_cons_of_mem _ he)
    have IH := ih (max c ev.endH) hrest
    rw [freeSlotsSweep]
    by_cases h1 : c < ev.startH
    · rw [if_pos h1]
      by_cases h2 : c < min ev.startH wE
      · simp only [if_pos h2, List.cons_append, List.nil_append]
        have hrest_start : ∀ s ∈ freeSlotsSweep wE (max c ev.endH) rest,
            min ev.startH wE ≤ s.start := by
          intro s hs
          have := (IH.1 s hs).1
          have hse : min ev.startH wE ≤ max c ev.endH :=
            le_trans (min_le_left _ _)
              (le_trans (le_of_lt hev) (le_max_right _ _))
          linarith
        constructor
        · intro s hs
          rcases List.mem_cons.mp hs with rfl | hs
          · exact ⟨le_refl _, h2⟩
          · have := (IH.1 s hs).1
            exact ⟨le_trans (le_max_left _ _) this, (IH.1 s hs).2⟩
        · exact List.Pairwise.cons (fun b hb => hrest_start b hb) IH.2
      · simp only [if_neg h2, List.nil_append]
        refine ⟨fun s hs => ?_, IH.2⟩
        have := (IH.1 s hs).1
        exact ⟨le_trans (le_max_left _ _) this, (IH.1 s hs).2⟩
    · rw [if_neg h1]
      simp only [List.nil_append]
      refine ⟨fun s hs => ?_, IH.2⟩
      have := (IH.1 s hs).1
      exact ⟨le_trans (le_max_left _ _) this, (IH.1 s hs).2⟩

theorem mem_insertByStart (x a : CalEvent) (l : List CalEvent) :
    a ∈ insertByStart x l ↔ a = x ∨ a ∈ l := by
  induction l with
  | nil => simp [insertByStart]
  | cons y ys ih =>
    rw [insertByStart]
    by_cases h : y.startH ≤ x.startH
    · rw [if_pos h]
      simp only [List.mem_cons, ih]
      tauto
    · rw [if_neg h]
      simp only [List.mem_cons]

theorem mem_sortEventsByStart (a : CalEvent) (l : List CalEvent) :
    a ∈ sortEventsByStart l ↔ a ∈ l := by
  have key : ∀ (l acc : List CalEvent),
      a ∈ l.foldl (fun acc x => insertByStart x acc) acc ↔ a ∈ acc ∨ a ∈ l := by
    intro l
    induction l with
    | nil => intro acc; simp
    | cons y ys ih =>
      intro acc
      rw [List.foldl_cons, ih, mem_insertByStart]
      simp only [List.mem_cons]
      tauto
  rw [sortEventsByStart, key]
  simp

theorem clampMem_sortEventsByStart (wS wE x : ℚ) (l : List CalEvent) :
    clampMem wS wE (sortEventsByStart l) x ↔ clampMem wS wE l x := by
  unfold clampMem
  constructor
  · rintro ⟨e, he, h⟩
    exact ⟨e, (mem_sortEventsByStart e l).mp he, h⟩
  · rintro ⟨e, he, h⟩
    exact ⟨e, (mem_sortEventsByStart e l).mpr he, h⟩

/-- C2: for every list of calendar events (each with `start < end`) and
every work window `[workStart, workEnd)` with `workStart < workEnd`, the
union of the slots emitted by `get_free_time_slots` together with the union
of the event intervals clamped to the window is exactly `[workStart,
workEnd)`, and the emitted slots are ordered and pairwise non-overlapping
(so nothing is double-subtracted). -/
theorem free_time_slots_partition (events : List CalEvent)
    (work_start_hour work_end_hour : ℤ)
    (hW : work_start_hour < work_end_hour)
    (hE : ∀ e ∈ events, e.startH < e.endH) :
    (∀ x : ℚ,
      (slotMem (get_free_time_slots (Except.ok events) work_start_hour work_end_hour) x
        ∨ clampMem (work_start_hour : ℚ) (work_end_hour : ℚ) events x)
      ↔ ((work_start_hour : ℚ) ≤ x ∧ x < (work_end_hour : ℚ))) ∧
    List.Pairwise (fun a b => a.stop ≤ b.start)
      (get_free_time_slots (Except.ok events) work_start_hour work_end_hour) := by
  have hval : ∀ e ∈ sortEventsByStart events, e.startH < e.endH :=
    fun e he => hE e ((mem_sortEventsByStart e events).mp he)
  constructor
  · intro x
    have hcov := freeSlotsSweep_cover (work_start_hour : ℚ) (work_end_hour : ℚ)
      (sortEventsByStart events) (work_start_hour : ℚ) (le_refl _) hval x
    have hclamp := clampMem_sortEventsByStart (work_start_hour : ℚ)
      (work_end_hour : ℚ) x events
    simp only [get_free_time_slots, get_events_for_date]
    constructor
    · intro h
      apply hcov.mp
      rcases h with h | h
      · exact Or.inl h
      · exact Or.inr (Or.inl (hclamp.mpr h))
    · intro h
      rcases hcov.mpr h with h1 | h2 | h3
      · exact Or.inl h1
      · exact Or.inr (hclamp.mp h2)
      · exfalso
        have hx : x < (work_start_hour : ℚ) :=
          lt_of_lt_of_le h3.2 (min_le_left _ _)
        linarith [h3.1]
  · simp only [get_free_time_slots, get_events_for_date]
    exact (freeSlotsSweep_chain (work_end_hour : ℚ)
      (sortEventsByStart events) (work_start_hour : ℚ) hval).2

/-- Witness for C2 at the concrete input: one event 11:00-13:00 inside
the work window 9-14. -/
theorem free_time_slots_partition_witness :
    ((9 : ℤ) < 14 ∧ (∀ e ∈ [CalEvent.mk "Standup" 11 13], e.startH < e.endH)) ∧
    ((∀ x : ℚ,
      (slotMem (get_free_time_slots (Except.ok [CalEvent.mk "Standup" 11 13]) 9 14) x
        ∨ clampMem ((9 : ℤ) : ℚ) ((14 : ℤ) : ℚ) [CalEvent.mk "Standup" 11 13] x)
      ↔ (((9 : ℤ) : ℚ) ≤ x ∧ x < ((14 : ℤ) : ℚ))) ∧
    List.Pairwise (fun a b => a.stop ≤ b.start)
      (get_free_time_slots (Except.ok [CalEvent.mk "Standup" 11 13]) 9 14)) :=
  ⟨⟨by decide, by decide⟩,
    free_time_slots_partition [CalEvent.mk "Standup" 11 13] 9 14
      (by decide) (by decide)⟩

theorem seenAfter_mono (l : List TaskRec) :
    ∀ (seen : List String) (s : String), s ∈ seen →
      s ∈ seenAfter seen l := by
  induction l with
  | nil => intro seen s h; exact h
  | cons t ts ih =>
    intro seen s h
    rw [seenAfter]
    by_cases hc : t.name ∈ seen
    · rw [if_pos hc]; exact ih seen s h
    · rw [if_neg hc]
      exact ih _ s (List.mem_cons_of_mem _ h)

theorem seenAfter_names (l : List TaskRec) :
    ∀ (seen : List String) (t : TaskRec), t ∈ l →
      t.name ∈ seenAfter seen l := by
  induction l with
  | nil => intro _ t h; exact absurd h (List.not_mem_nil t)
  | cons u us ih =>
    intro seen t h
    rw [seenAfter]
    rcases List.mem_cons.mp h with rfl | h
    · by_cases hc : t.name ∈ seen
      · rw [if_pos hc]; exact seenAfter_mono us seen t.name hc
      · rw [if_neg hc]
        exact seenAfter_mono us _ t.name (List.mem_cons_self _ _)
    · by_cases hc : u.name ∈ seen
      · rw [if_pos hc]; exact ih seen t h
      · rw [if_neg hc]; exact ih _ t h

theorem dedupTasks_append (l₁ : List TaskRec) :
    ∀ (seen : List String) (l₂ : List TaskRec),
      dedupTasks seen (l₁ ++ l₂) =
        dedupTasks seen l₁ ++ dedupTasks (seenAfter seen l₁) l₂ := by
  induction l₁ with
  | nil => intro seen l₂; rfl
  | cons t ts ih =>
    intro seen l₂
    rw [List.cons_append, dedupTasks, dedupTasks, seenAfter]
    by_cases hc : t.name ∈ seen
    · rw [if_pos hc, if_pos hc, if_pos hc]
      exact ih seen l₂
    · rw [if_neg hc, if_neg hc, if_neg hc, List.cons_append]
      rw [ih _ l₂]

theorem dedupTasks_all_seen (l : List TaskRec) :
    ∀ seen : List String, (∀ t ∈ l, t.name ∈ seen) →
      dedupTasks seen l = [] := by
  induction l with
  | nil => intro _ _; rfl
  | cons t ts ih =>
    intro seen h
    rw [dedupTasks, if_pos (h t (List.mem_cons_self _ _))]
    exact ih seen (fun u hu => h u (List.mem_cons_of_mem _ hu))

/-- C9: the combiner is idempotent under duplication: combining a list `L`
as carryover with `L` again as still-on-list (and no new tasks) yields
exactly what combining `L` alone yields, namely the first-seen-wins
deduplication of `L`; and a later duplicate is dropped entirely, the
first occurrence keeping its full record. -/
theorem combine_all_tasks_idempotent :
    (∀ L : List TaskRec, _combine_all_tasks L [] L = _combine_all_tasks L [] []) ∧
    (∀ L : List TaskRec, _combine_all_tasks L [] [] = dedupTasks [] L) ∧
    _combine_all_tasks [reportTaskA] [] [reportTaskB] = [reportTaskA] := by
  have key : ∀ L : List TaskRec, _combine_all_tasks L [] L = dedupTasks [] L := by
    intro L
    show dedupTasks [] ((L ++ []) ++ L) = dedupTasks [] L
    rw [List.append_nil, dedupTasks_append L [] L,
      dedupTasks_all_seen L (seenAfter [] L)
        (fun t ht => seenAfter_names L [] t ht),
      List.append_nil]
  have base : ∀ L : List TaskRec, _combine_all_tasks L [] [] = dedupTasks [] L := by
    intro L
    show dedupTasks [] ((L ++ []) ++ []) = dedupTasks [] L
    rw [List.append_nil, List.append_nil]
  exact ⟨fun L => (key L).trans (base L).symm, base, by with_unfolding_all rfl⟩

/-- C5: the failing input `Walk dog (2h, urgent)`: the parser stores the
urgency literally as the string `urgent` (line 253 of the docs service),
which is not `high` and is outside the scorer's weight table, so
`_prioritize_tasks` falls back to the default weight 4 instead of the
claimed 7 — and outside `add_task`'s own documented vocabulary
(`critical, high, medium, low`). -/
theorem parse_urgent_keyword_scores_default :
    _parse_task_details "Walk dog (2h, urgent)" =
      some { name := "Walk dog", hours := 2, urgency := "urgent",
             due_date := none, source := "", priority_score := 0 } ∧
    urgency_weight "urgent" = 4 ∧
    score_task 0 { name := "Walk dog", hours := 2, urgency := "urgent",
                   due_date := none, source := "carryover",
                   priority_score := 0 } =
      Except.ok { name := "Walk dog", hours := 2, urgency := "urgent",
                  due_date := none, source := "carryover",
                  priority_score := 7 } ∧
    urgency_weight "high" = 7 := by
  refine ⟨by with_unfolding_all rfl, by with_unfolding_all rfl,
    by with_unfolding_all rfl, by with_unfolding_all rfl⟩

/-- C3: at the function's own docstring example (a meeting 11:00-12:00
between task blocks), `_format_schedule` neither interleaves nor renders:
its control flow emits every task line before any meeting line, and the
first task line already raises `ValueError` (format code `d` applied to
the float `start_time`), so the formatter fails outright — while with no
scheduled tasks the meeting lines render fine after the header. -/
theorem format_schedule_no_chronological_merge :
    _format_schedule "10/14/25 - Mon"
      { scheduled := [walkDogEntry], unscheduled := [],
        meetings := [standupMeeting] } =
      Except.error floatFormatError ∧
    _format_schedule "10/14/25 - Mon"
      { scheduled := [], unscheduled := [], meetings := [standupMeeting] } =
      Except.ok "10/14/25 - Mon\n\n[Meeting: 11:00 - 12:00: Team standup]\n\n---\n" := by
  exact ⟨by with_unfolding_all rfl, by with_unfolding_all rfl⟩

/-- C4: with an empty still-on-list (here: zero tasks at all), the
formatter emits neither the still-on-list header nor any
`- None (all tasks complete!)` line — the whole section is skipped
(lines 455-460 run only when `unscheduled` is non-empty, and the `None`
string occurs nowhere in the service). -/
theorem format_schedule_empty_still_list_omits_section :
    _format_schedule "10/14/25 - Tue"
      { scheduled := [], unscheduled := [], meetings := [] } =
      Except.ok "10/14/25 - Tue\n\n\n---\n" ∧
    pyIn "None (all tasks complete!)" "10/14/25 - Tue\n\n\n---\n" = false ∧
    pyIn "Still on list" "10/14/25 - Tue\n\n\n---\n" = false := by
  exact ⟨by with_unfolding_all rfl, by with_unfolding_all rfl,
    by with_unfolding_all rfl⟩

/-- Each task produces exactly one outcome record in `_schedule_tasks`:
the names of the scheduled entries and of the unscheduled tasks together
are a permutation of the input names — a task is never split into several
occurrences. -/
theorem schedLoop_names_perm (ts : List TaskRec) :
    ∀ slots : List MinSlot,
      List.Perm (((schedLoop ts slots).1.map (fun e => e.task.name)) ++
        ((schedLoop ts slots).2.map TaskRec.name)) (ts.map TaskRec.name) := by
  induction ts with
  | nil => intro slots; simp [schedLoop]
  | cons t ts ih =>
    intro slots
    cases htf : tryFit (task_minutes t) slots with
    | some v =>
      obtain ⟨a, d, slots'⟩ := v
      simp only [schedLoop, htf, List.map_cons, List.cons_append, List.map]
      exact List.Perm.cons _ (ih slots')
    | none =>
      simp only [schedLoop, htf, List.map_cons]
      exact List.Perm.trans List.perm_middle (List.Perm.cons _ (ih slots))

/-- C1: the scheduler does not partial-fill.  Generally, every task yields
exactly one outcome record (scheduled whole or unscheduled whole, never
several occurrences); and at the claim's own scenario — free slots
`[9,11)` and `[13,14)` (120+60 min) and a single 2.5h task — no occurrence
is produced at all and the task stays on the still-on-list whole, because
neither slot can hold all 150 minutes (lines 383-400 only place a task
into a slot with `duration >= task_minutes`). -/
theorem schedule_tasks_never_splits :
    (∀ (ts : List TaskRec) (slots : List MinSlot),
      List.Perm (((schedLoop ts slots).1.map (fun e => e.task.name)) ++
        ((schedLoop ts slots).2.map TaskRec.name)) (ts.map TaskRec.name)) ∧
    get_free_time_slots (Except.ok [busyBlock]) 9 14 =
      [{ start := 9, stop := 11, duration := 2 },
       { start := 13, stop := 14, duration := 1 }] ∧
    _schedule_tasks [writeTask] [busyBlock] (Except.ok [busyBlock]) 9 14 =
      { scheduled := [], unscheduled := [writeTask],
        meetings := [busyBlock] } := by
  exact ⟨fun ts => schedLoop_names_perm ts, by with_unfolding_all rfl,
    by with_unfolding_all rfl⟩

/-- C6 counterexample: a run whose document read fails (`HttpError 404`)
is not aborted: the read is swallowed into an empty document, the pipeline
carries on, writes a (task-less) plan to the document, and reports
success. -/
theorem generate_writes_plan_despite_doc_failure :
    generate_complete_schedule "10/13/25" "10/14/25 - Tue" 20089
        (Except.error "HttpError 404") (Except.ok []) (Except.ok ()) [] 9 15 =
      ("Schedule created! 0 tasks scheduled, 0 on waitlist.",
        ["10/14/25 - Tue\n\n\n---\n"]) ∧
    read_document (Except.error "HttpError 404") = "" := by
  exact ⟨by with_unfolding_all rfl, rfl⟩

/-- C6 amended: document-read and calendar failures are swallowed by the
collaborator wrappers (`read_document` returns `""`, `get_events_for_date`
returns `[]`), so the parsers yield empty task lists and the pipeline
continues: it still formats and writes a plan built from the empty inputs
and reports success.  Only a failure of the final append is surfaced, as
the returned string `"Error: ..."` with nothing written.  Each
collaborator call is made exactly once per run — no retry anywhere. -/
theorem collaborator_failures_swallowed :
    (∀ e : String, read_document (Except.error e) = "") ∧
    (∀ e : String, get_events_for_date (Except.error e) = []) ∧
    (∀ (tp e : String), parse_tasks_from_doc tp (Except.error e) = []) ∧
    (∀ e : String, parse_still_on_list (Except.error e) = []) ∧
    (∀ (tp ds : String) (today : ℤ) (ws we : ℤ) (e : String),
      generate_complete_schedule tp ds today (Except.error e) (Except.ok [])
          (Except.ok ()) [] ws we =
        ("Schedule created! 0 tasks scheduled, 0 on waitlist.",
          [ds ++ "\n\n" ++ "\n---\n"])) ∧
    (∀ (tp ds : String) (today : ℤ) (ws we : ℤ) (e : String),
      generate_complete_schedule tp ds today (Except.ok "") (Except.error e)
          (Except.ok ()) [] ws we =
        ("Schedule created! 0 tasks scheduled, 0 on waitlist.",
          [ds ++ "\n\n" ++ "\n---\n"])) ∧
    (∀ (tp ds : String) (today : ℤ) (ws we : ℤ) (e : String),
      generate_complete_schedule tp ds today (Except.ok "") (Except.ok [])
          (Except.error e) [] ws we = ("Error: " ++ e, [])) := by
  refine ⟨fun e => rfl, fun e => rfl, fun tp e => rfl, fun e => rfl,
    fun tp ds today ws we e => ?_, fun tp ds today ws we e => ?_,
    fun tp ds today ws we e => rfl⟩
  · with_unfolding_all rfl
  · with_unfolding_all rfl

/-- Every scheduled entry's recorded times come from float floor-division
of the allocation's minute offsets by 60. -/
theorem schedLoop_entry_times (ts : List TaskRec) :
    ∀ (slots : List MinSlot), ∀ e ∈ (schedLoop ts slots).1,
      ∃ a : ℚ, e.start_time = ((⌊a / 60⌋ : ℤ) : ℚ) ∧
        e.end_time = ((⌊(a + task_minutes e.task) / 60⌋ : ℤ) : ℚ) := by
  induction ts with
  | nil => intro slots e he; simp [schedLoop] at he
  | cons t ts ih =>
    intro slots e he
    cases htf : tryFit (task_minutes t) slots with
    | some v =>
      obtain ⟨a, d, slots'⟩ := v
      simp only [schedLoop, htf] at he
      rcases List.mem_cons.mp he with rfl | he
      · exact ⟨a, rfl, rfl⟩
      · exact ih slots' e he
    | none =>
      simp only [schedLoop, htf] at he
      exact ih slots e he

/-- C10 amended: the scheduler records `start_time`/`end_time` by integer
(floor) division of the minute offsets by 60, so both are whole numbers of
hours; hence for any scheduled task whose declared duration is not a whole
number of hours, the recorded interval's length differs from the declared
hours.  (The `HH:00` task-line rendering itself never happens: formatting
raises `ValueError` on the float `start_time`, see the counterexample.) -/
theorem sched_times_are_floored_hours (ts : List TaskRec)
    (slots : List MinSlot) (e : SchedEntry)
    (he : e ∈ (schedLoop ts slots).1) :
    (∃ a : ℚ, e.start_time = ((⌊a / 60⌋ : ℤ) : ℚ) ∧
      e.end_time = ((⌊(a + task_minutes e.task) / 60⌋ : ℤ) : ℚ)) ∧
    (e.task.hours.den ≠ 1 → e.end_time - e.start_time ≠ e.task.hours) := by
  obtain ⟨a, h1, h2⟩ := schedLoop_entry_times ts slots e he
  refine ⟨⟨a, h1, h2⟩, ?_⟩
  intro hden heq
  apply hden
  have hdiff : e.end_time - e.start_time =
      ((⌊(a + task_minutes e.task) / 60⌋ - ⌊a / 60⌋ : ℤ) : ℚ) := by
    rw [h1, h2]
    push_cast
    ring
  rw [hdiff] at heq
  rw [← heq]
  exact Rat.den_intCast _

/-- C10 counterexample: the scheduler records 9-10 (one whole hour) for
the 1.5h task, and the claimed `HH:00` rendering never happens — the
formatter raises `ValueError` on the first task line (format code `d`
applied to the float `start_time`), so no interval is rendered at all. -/
theorem format_schedule_task_line_raises :
    (schedLoop [gymTask] [gymSlot]).1 = [gymEntry] ∧
    gymEntry.end_time - gymEntry.start_time = 1 ∧
    gymTask.hours = 3/2 ∧
    _format_schedule "10/14/25 - Tue"
      { scheduled := [gymEntry], unscheduled := [], meetings := [] } =
      Except.error floatFormatError := by
  exact ⟨by with_unfolding_all rfl, by with_unfolding_all rfl,
    by with_unfolding_all rfl, by with_unfolding_all rfl⟩

/-- Witness for C10 at the concrete 1.5h instance. -/
theorem sched_times_are_floored_hours_witness :
    gymEntry ∈ (schedLoop [gymTask] [gymSlot]).1 ∧
    ((∃ a : ℚ, gymEntry.start_time = ((⌊a / 60⌋ : ℤ) : ℚ) ∧
      gymEntry.end_time = ((⌊(a + task_minutes gymEntry.task) / 60⌋ : ℤ) : ℚ)) ∧
    (gymEntry.task.hours.den ≠ 1 →
      gymEntry.end_time - gymEntry.start_time ≠ gymEntry.task.hours)) :=
  ⟨by with_unfolding_all decide,
    sched_times_are_floored_hours [gymTask] [gymSlot] gymEntry
      (by with_unfolding_all decide)⟩

theorem filter_name_eq_nil (ts : List TaskRec) (n : String)
    (h : ∀ u ∈ ts, u.name ≠ n) :
    ts.filter (fun u => u.name == n) = [] := by
  induction ts with
  | nil => rfl
  | cons u us ih =>
    have hb : (u.name == n) = false :=
      beq_eq_false_iff_ne.mpr (h u (List.mem_cons_self _ _))
    rw [List.filter_cons]
    simp only [hb, Bool.false_eq_true, if_false]
    exact ih (fun v hv => h v (List.mem_cons_of_mem _ hv))

theorem filter_name_self (ts : List TaskRec)
    (hnodup : (ts.map TaskRec.name).Nodup) :
    ∀ t ∈ ts, ts.filter (fun u => u.name == t.name) = [t] := by
  induction ts with
  | nil => intro t ht; exact absurd ht (List.not_mem_nil t)
  | cons u us ih =>
    intro t ht
    rw [List.map_cons, List.nodup_cons] at hnodup
    obtain ⟨hu, hus⟩ := hnodup
    rcases List.mem_cons.mp ht with rfl | ht
    · rw [List.filter_cons]
      simp only [beq_self_eq_true, if_true]
      have hnil : us.filter (fun v => v.name == t.name) = [] := by
        refine filter_name_eq_nil us t.name (fun v hv hvn => hu ?_)
        exact hvn ▸ List.mem_map_of_mem TaskRec.name hv
      rw [hnil]
    · have hb : (u.name == t.name) = false := by
        refine beq_eq_false_iff_ne.mpr (fun hEq => hu ?_)
        exact hEq ▸ List.mem_map_of_mem TaskRec.name ht
      rw [List.filter_cons]
      simp only [hb, Bool.false_eq_true, if_false]
      exact ih hus t ht

/-- The minutes assigned to a name never exceed the summed whole-task
minutes of the input tasks carrying that name. -/
theorem schedLoop_minutes_le (ts : List TaskRec) :
    ∀ (slots : List MinSlot) (n : String), (∀ t ∈ ts, 0 ≤ t.hours) →
      scheduledMinutes (schedLoop ts slots).1 n ≤
        ((ts.filter (fun t => t.name == n)).map task_minutes).sum := by
  induction ts with
  | nil => intro slots n _; simp [schedLoop, scheduledMinutes]
  | cons t ts ih =>
    intro slots n hpos
    have hpos' : ∀ u ∈ ts, 0 ≤ u.hours :=
      fun u hu => hpos u (List.mem_cons_of_mem _ hu)
    have htm : (0 : ℚ) ≤ task_minutes t := by
      have h60 : (0 : ℚ) ≤ t.hours * 60 :=
        mul_nonneg (hpos t (List.mem_cons_self _ _)) (by norm_num)
      unfold task_minutes
      exact_mod_cast Int.floor_nonneg.mpr h60
    cases htf : tryFit (task_minutes t) slots with
    | some v =>
      obtain ⟨a, d, slots'⟩ := v
      cases hb : (t.name == n) with
      | true =>
        simp only [schedLoop, htf, scheduledMinutes, List.filter_cons, hb,
          if_true, List.map_cons, List.sum_cons]
        exact add_le_add_left (ih slots' n hpos') _
      | false =>
        simp only [schedLoop, htf, scheduledMinutes, List.filter_cons, hb,
          Bool.false_eq_true, if_false]
        exact ih slots' n hpos'
    | none =>
      cases hb : (t.name == n) with
      | true =>
        simp only [schedLoop, htf, List.filter_cons, hb, if_true,
          List.map_cons, List.sum_cons]
        exact le_add_of_nonneg_left htm |>.trans' (ih slots n hpos')
      | false =>
        simp only [schedLoop, htf, List.filter_cons, hb,
          Bool.false_eq_true, if_false]
        exact ih slots n hpos'

/-- C8: for every task list (pairwise-distinct names, positive hours, the
pipeline invariants) and every free-slot list, after scheduling completes
no task has been allocated more minutes than `hours * 60`. -/
theorem schedule_never_over_allocates (tasks : List TaskRec)
    (slots : List MinSlot) (hnodup : (tasks.map TaskRec.name).Nodup)
    (hpos : ∀ t ∈ tasks, 0 < t.hours) :
    ∀ t ∈ tasks,
      scheduledMinutes (schedLoop tasks slots).1 t.name ≤ t.hours * 60 := by
  intro t ht
  have h1 := schedLoop_minutes_le tasks slots t.name
    (fun u hu => le_of_lt (hpos u hu))
  rw [filter_name_self tasks hnodup t ht] at h1
  simp only [List.map_cons, List.map_nil, List.sum_cons, List.sum_nil,
    add_zero] at h1
  refine h1.trans ?_
  exact_mod_cast Int.floor_le (t.hours * 60)

/-- Witness for C8: two tasks, 1.5h and 1h, one 120-minute slot; the
first fits whole, the second does not. -/
theorem schedule_never_over_allocates_witness :
    ((([gymTask, writeTask].map TaskRec.name).Nodup ∧
      ∀ t ∈ [gymTask, writeTask], 0 < t.hours) ∧
    ∀ t ∈ [gymTask, writeTask],
      scheduledMinutes (schedLoop [gymTask, writeTask] [gymSlot]).1 t.name ≤
        t.hours * 60) :=
  ⟨⟨by with_unfolding_all decide, by with_unfolding_all decide⟩,
    schedule_never_over_allocates [gymTask, writeTask] [gymSlot]
      (by with_unfolding_all decide) (by with_unfolding_all decide)⟩

theorem mem_insertByScore (x a : TaskRec) (l : List TaskRec) :
    a ∈ insertByScore x l ↔ a = x ∨ a ∈ l := by
  induction l with
  | nil => simp [insertByScore]
  | cons y ys ih =>
    rw [insertByScore]
    by_cases h : x.priority_score ≤ y.priority_score
    · rw [if_pos h]
      simp only [List.mem_cons, ih]
      tauto
    · rw [if_neg h]
      simp only [List.mem_cons]

theorem insertByScore_sorted (x : TaskRec) (l : List TaskRec)
    (h : List.Pairwise (fun a b => b.priority_score ≤ a.priority_score) l) :
    List.Pairwise (fun a b => b.priority_score ≤ a.priority_score)
      (insertByScore x l) := by
  induction l with
  | nil => exact List.pairwise_singleton _ _
  | cons y ys ih =>
    rw [List.pairwise_cons] at h
    obtain ⟨hy, hys⟩ := h
    rw [insertByScore]
    by_cases hxy : x.priority_score ≤ y.priority_score
    · rw [if_pos hxy]
      refine List.Pairwise.cons (fun b hb => ?_) (ih hys)
      rcases (mem_insertByScore x b ys).mp hb with rfl | hb
      · exact hxy
      · exact hy b hb
    · rw [if_neg hxy]
      refine List.Pairwise.cons (fun b hb => ?_)
        (List.Pairwise.cons hy hys)
      rcases List.mem_cons.mp hb with rfl | hb
      · exact le_of_lt (not_le.mp hxy)
      · exact le_trans (hy b hb) (le_of_lt (not_le.mp hxy))

theorem sortByScoreDesc_sorted (l : List TaskRec) :
    List.Pairwise (fun a b => b.priority_score ≤ a.priority_score)
      (sortByScoreDesc l) := by
  have key : ∀ (l acc : List TaskRec),
      List.Pairwise (fun a b => b.priority_score ≤ a.priority_score) acc →
      List.Pairwise (fun a b => b.priority_score ≤ a.priority_score)
        (l.foldl (fun acc x => insertByScore x acc) acc) := by
    intro l
    induction l with
    | nil => intro acc h; exact h
    | cons x xs ih =>
      intro acc h
      rw [List.foldl_cons]
      exact ih _ (insertByScore_sorted x acc h)
  exact key l [] List.Pairwise.nil

theorem filter_score_eq_nil (l : List TaskRec) (s b : ℤ)
    (hle : ∀ t ∈ l, t.priority_score ≤ b) (hlt : b < s) :
    l.filter (fun t => t.priority_score == s) = [] := by
  rw [List.filter_eq_nil_iff]
  intro t ht
  have h1 : t.priority_score < s := lt_of_le_of_lt (hle t ht) hlt
  simp only [beq_iff_eq]
  exact ne_of_lt h1

theorem filter_insertByScore (x : TaskRec) (l : List TaskRec) (s : ℤ)
    (h : List.Pairwise (fun a b => b.priority_score ≤ a.priority_score) l) :
    (insertByScore x l).filter (fun t => t.priority_score == s) =
      l.filter (fun t => t.priority_score == s) ++
        (if x.priority_score = s then [x] else []) := by
  induction l with
  | nil =>
    rw [insertByScore]
    by_cases hx : x.priority_score = s
    · have hxb : (x.priority_score == s) = true := beq_iff_eq.mpr hx
      simp [List.filter_cons, hxb, hx]
    · have hxb : (x.priority_score == s) = false := beq_eq_false_iff_ne.mpr hx
      simp [List.filter_cons, hxb, hx]
  | cons y ys ih =>
    rw [List.pairwise_cons] at h
    obtain ⟨hy, hys⟩ := h
    rw [insertByScore]
    by_cases hxy : x.priority_score ≤ y.priority_score
    · rw [if_pos hxy, List.filter_cons, List.filter_cons]
      cases hb : (y.priority_score == s) with
      | true =>
        simp only [if_true]
        rw [ih hys, List.cons_append]
      | false =>
        simp only [Bool.false_eq_true, if_false]
        exact ih hys
    · rw [if_neg hxy, List.filter_cons]
      by_cases hx : x.priority_score = s
      · have hxb : (x.priority_score == s) = true := beq_iff_eq.mpr hx
        simp only [hxb, if_true, hx, if_pos rfl]
        have hnil : (y :: ys).filter (fun t => t.priority_score == s) = [] := by
          refine filter_score_eq_nil (y :: ys) s y.priority_score ?_ ?_
          · intro t ht
            rcases List.mem_cons.mp ht with rfl | ht
            · exact le_refl _
            · exact hy t ht
          · exact hx ▸ not_le.mp hxy
        rw [hnil]
        simp
      · have hxb : (x.priority_score == s) = false := beq_eq_false_iff_ne.mpr hx
        simp only [hxb, Bool.false_eq_true, if_false, hx, if_neg hx,
          List.append_nil]

theorem sortByScoreDesc_filter (l : List TaskRec) (s : ℤ) :
    (sortByScoreDesc l).filter (fun t => t.priority_score == s) =
      l.filter (fun t => t.priority_score == s) := by
  have key : ∀ (l acc : List TaskRec),
      List.Pairwise (fun a b => b.priority_score ≤ a.priority_score) acc →
      (l.foldl (fun acc x => insertByScore x acc) acc).filter
          (fun t => t.priority_score == s) =
        acc.filter (fun t => t.priority_score == s) ++
          l.filter (fun t => t.priority_score == s) := by
    intro l
    induction l with
    | nil => intro acc _; simp
    | cons x xs ih =>
      intro acc h
      rw [List.foldl_cons, ih _ (insertByScore_sorted x acc h),
        filter_insertByScore x acc s h, List.filter_cons]
      by_cases hx : x.priority_score = s
      · have hxb : (x.priority_score == s) = true := beq_iff_eq.mpr hx
        simp only [hx, if_pos rfl, hxb, if_true]
        rw [List.append_assoc]
        simp
      · have hxb : (x.priority_score == s) = false := beq_eq_false_iff_ne.mpr hx
        simp only [hx, if_neg hx, hxb, Bool.false_eq_true, if_false,
          List.append_nil]
  have h := key l [] List.Pairwise.nil
  simpa using h

/-- C7: when every due date parses (the loop raises otherwise),
`_prioritize_tasks` returns exactly the stable descending sort of the
scored list: scores are
`urgencyWeight + dueDateWeight + carryoverBoost` with the claimed weight
tables (critical 10 / high 7 / medium 4 / low 1; overdue-or-today +5,
tomorrow +3, within a week +1, later 0; +3 for `carryover` or
`still_on_list`), the output is sorted by descending score, and for every
score value the tasks carrying it keep the Combiner's relative order
(stable sort). -/
theorem prioritize_tasks_stable_desc (today : ℤ)
    (tasks scored : List TaskRec)
    (h : tasks.mapM (score_task today) = Except.ok scored) :
    _prioritize_tasks today tasks = Except.ok (sortByScoreDesc scored) ∧
    List.Pairwise (fun a b => b.priority_score ≤ a.priority_score)
      (sortByScoreDesc scored) ∧
    (∀ s : ℤ,
      (sortByScoreDesc scored).filter (fun t => t.priority_score == s) =
        scored.filter (fun t => t.priority_score == s)) ∧
    (∀ (t : TaskRec) (w : ℤ), due_weight t.due_date today = Except.ok w →
      score_task today t = Except.ok
        { t with
          priority_score :=
            urgency_weight t.urgency + w +
              (if t.source = "carryover" ∨ t.source = "still_on_list" then 3
               else 0) }) ∧
    (urgency_weight "critical" = 10 ∧ urgency_weight "high" = 7 ∧
      urgency_weight "medium" = 4 ∧ urgency_weight "low" = 1) ∧
    (∀ (s : String) (o d0 : ℤ), s ≠ "" → dateOrd s = some o →
      due_weight (some s) d0 = Except.ok
        (if o - d0 ≤ 0 then 5
         else if o - d0 = 1 then 3
         else if o - d0 ≤ 7 then 1 else 0)) := by
  refine ⟨?_, sortByScoreDesc_sorted scored,
    fun s => sortByScoreDesc_filter scored s, ?_, ⟨rfl, rfl, rfl, rfl⟩, ?_⟩
  · unfold _prioritize_tasks
    rw [h]
  · intro t w hw
    unfold score_task
    rw [hw]
  · intro s o d0 hs ho
    simp only [due_weight, if_neg hs, ho]

/-- Witness for C7 at the concrete input. -/
theorem prioritize_tasks_stable_desc_witness :
    witnessTasks.mapM (score_task 20089) = Except.ok witnessScored ∧
    (_prioritize_tasks 20089 witnessTasks =
        Except.ok (sortByScoreDesc witnessScored) ∧
      List.Pairwise (fun a b => b.priority_score ≤ a.priority_score)
        (sortByScoreDesc witnessScored) ∧
      (∀ s : ℤ,
        (sortByScoreDesc witnessScored).filter
            (fun t => t.priority_score == s) =
          witnessScored.filter (fun t => t.priority_score == s)) ∧
      (∀ (t : TaskRec) (w : ℤ), due_weight t.due_date 20089 = Except.ok w →
        score_task 20089 t = Except.ok
          { t with
            priority_score :=
              urgency_weight t.urgency + w +
                (if t.source = "carryover" ∨ t.source = "still_on_list" then 3
                 else 0) }) ∧
      (urgency_weight "critical" = 10 ∧ urgency_weight "high" = 7 ∧
        urgency_weight "medium" = 4 ∧ urgency_weight "low" = 1) ∧
      (∀ (s : String) (o d0 : ℤ), s ≠ "" → dateOrd s = some o →
        due_weight (some s) d0 = Except.ok
          (if o - d0 ≤ 0 then 5
           else if o - d0 = 1 then 3
           else if o - d0 ≤ 7 then 1 else 0))) :=
  ⟨by with_unfolding_all rfl,
    prioritize_tasks_stable_desc 20089 witnessTasks witnessScored
      (by with_unfolding_all rfl)⟩
